import Mathlib

/-!
Verification of the table-detection stage of Parsr
(`src/server/src/processing/TableDetectionModule/TableDetectionModule.ts`).

The TypeScript module is shallowly embedded: JS numbers are modelled as
rationals (`ℚ`), JS arrays as lists, in-place mutation as explicit state
passing, and statements that throw a `TypeError` (undefined property access,
`JSON.parse` of malformed input) as `Except String`.  Types and helpers that
the module imports from the rest of the repository
(`DocumentRepresentation`, `utils.groupConsecutiveNumbersInArray`,
`BoundingBox.getOverlap`, `getElementsOfType`, `TableCell.toString`,
`TableRow.mergeCells`) are not part of the sample; they are modelled from
the specification and marked as such in their doc comments.
-/

namespace Parsr

/-- A point of the raw detector payload (`{x, y}`). -/
structure Point where
  x : ℚ
  y : ℚ
  deriving DecidableEq

/-- A size of the raw detector payload (`{width, height}`). -/
structure Size where
  width : ℚ
  height : ℚ
  deriving DecidableEq

/-- Axis-aligned bounding box: left, top, width, height (top-left origin,
y downward), as constructed by `new BoundingBox(l, t, w, h)`. -/
structure BoundingBox where
  left : ℚ
  top : ℚ
  width : ℚ
  height : ℚ
  deriving DecidableEq

/-- Derived right edge of a box. -/
def BoundingBox.right (b : BoundingBox) : ℚ := b.left + b.width

/-- Derived bottom edge of a box. -/
def BoundingBox.bottom (b : BoundingBox) : ℚ := b.top + b.height

/-- Area of a box. -/
def BoundingBox.area (b : BoundingBox) : ℚ := b.width * b.height

/-- Modelled from the spec: `BoundingBox.getOverlap(A,B).box1OverlapProportion`
is defined outside the sample; spec §4.1 gives
"`box1OverlapProportion(A,B) = area(intersection)/area(A)`, range [0,1],
0 when disjoint".  A degenerate first box yields 0. -/
def box1OverlapProportion (b1 b2 : BoundingBox) : ℚ :=
  let iw := min b1.right b2.right - max b1.left b2.left
  let ih := min b1.bottom b2.bottom - max b1.top b2.top
  if iw ≤ 0 ∨ ih ≤ 0 then 0
  else if b1.area = 0 then 0
  else iw * ih / b1.area

/-- JS strings are modelled as explicit character lists, so that the
embedding's text operations (trim, join, length) compute structurally.
`length` counts characters where JS counts UTF-16 units; they agree on the
texts this module handles. -/
abbrev JSString := List Char

/-- JS `String.prototype.trim()`: drop whitespace from both ends. -/
def jsTrim (s : JSString) : JSString :=
  ((s.dropWhile Char.isWhitespace).reverse.dropWhile Char.isWhitespace).reverse

/-- A word element: stable id, text, box. -/
structure Word where
  id : ℕ
  text : JSString
  box : BoundingBox
  deriving DecidableEq

/-- Direction tag of a spanned cell (`'left' | 'top' | 'right'`). -/
inductive Direction where
  | left
  | top
  | right
  deriving DecidableEq

/-- A `TableCell`: box, colspan/rowspan as assigned from the raw cell
(`tableCell.colspan = cell.colSpan`, possibly absent), and the contained
words (`tableCell.content`). -/
structure TableCell where
  box : BoundingBox
  colspan : Option ℕ
  rowspan : Option ℕ
  content : List Word
  deriving DecidableEq

/-- One entry of a reconstructed row: a `TableCell` or a `SpannedTableCell`
(box plus direction, no content). -/
inductive Cell where
  | cell (tc : TableCell)
  | spanned (box : BoundingBox) (dir : Direction)
  deriving DecidableEq

/-- The box carried by either kind of cell.  Every cell the module builds
carries a box, so the source's `filter(tc => !!tc.box)` keeps every cell. -/
def Cell.box : Cell → BoundingBox
  | .cell tc => tc.box
  | .spanned b _ => b

/-- Whether the entry is a `SpannedTableCell`. -/
def Cell.isSpanned : Cell → Bool
  | .cell _ => false
  | .spanned _ _ => true

/-- Modelled from the spec: `TableCell.toString()` is defined outside the
sample; spec §4.3 compares "the concatenation of its cell's word texts"
with expected text such as "this is only one", so word texts are joined
with single spaces.  A `SpannedTableCell` carries no content (spec §3). -/
def Cell.text : Cell → JSString
  | .cell tc => List.intercalate [' '] (tc.content.map Word.text)
  | .spanned _ _ => []

/-- A reconstructed table row: cells plus the row box. -/
structure TableRow where
  content : List Cell
  box : BoundingBox
  deriving DecidableEq

/-- A reconstructed table: rows plus the table box. -/
structure Table where
  content : List TableRow
  box : BoundingBox
  deriving DecidableEq

/-- A page element.  The module creates `Table` elements, removes `Word`
elements, and leaves every other element kind untouched, so other kinds are
collapsed into `other` with their id. -/
inductive Element where
  | word (w : Word)
  | table (t : Table)
  | other (id : ℕ)
  deriving DecidableEq

/-- A page: flat ordered element list plus the page box. -/
structure Page where
  elements : List Element
  box : BoundingBox
  deriving DecidableEq

/-- A document: ordered pages.  The `inputFile` field only feeds the
filesystem pre-checks of `main`, which are I/O and outside the embedding. -/
structure Document where
  pages : List Page
  deriving DecidableEq

/-- A raw detector cell (`{location, size, colSpan?, rowSpan?}`). -/
structure RawCell where
  location : Point
  size : Size
  colSpan : Option ℕ
  rowSpan : Option ℕ
  deriving DecidableEq

/-- A raw table descriptor as consumed by `addTable`/`createRows`. -/
structure RawTable where
  location : Point
  size : Size
  cols : List (ℚ × ℚ)
  rows : List (ℚ × ℚ)
  cells : List (List (Option RawCell))
  content : Option (List (List JSString))
  flavor : String
  deriving DecidableEq

/-- One payload entry: a 1-based page number and its raw tables. -/
structure PageData where
  page : ℤ
  tables : List RawTable
  deriving DecidableEq

/-- The outcome of one extractor invocation as `main` consumes it:
`status` from `TableExtractorResult`, and the result of `JSON.parse(stdout)`
modelled as `none` when the stdout is not valid JSON (in which case
`JSON.parse` throws). -/
structure PassResult where
  status : ℤ
  payload : Option (List PageData)
  deriving DecidableEq

/-- The entry `{x, y, direction}` of the `spannedCells` bookkeeping list
(`SpannedCellPosition`). -/
structure SpannedCellPosition where
  x : ℕ
  y : ℕ
  direction : Direction
  deriving DecidableEq

/-- `wordsInCellBox`: the page words whose box overlaps the cell bounds in
more than 0.75 of the word's own area. -/
def wordsInCellBox (cellBounds : BoundingBox) (pageWords : List Word) : List Word :=
  pageWords.filter (fun w => decide ((3 : ℚ)/4 < box1OverlapProportion w.box cellBounds))

/-- Effective span: JS `cell.colSpan || 1` — absent or zero means 1. -/
def effSpan : Option ℕ → ℕ
  | none => 1
  | some n => if n = 0 then 1 else n

/-- The spanned positions registered while processing the raw cell found at
`(colIndex, rowIndex)`: for each offset `(x, y)` of the cell's span other
than `(0,0)`, the position `(x+colIndex, y+rowIndex)` tagged `left` when
`x > 0` and `top` otherwise (outer loop over `x`, inner over `y`). -/
def registerSpans (c : RawCell) (colIndex rowIndex : ℕ) : List SpannedCellPosition :=
  (List.range (effSpan c.colSpan)).flatMap (fun x =>
    (List.range (effSpan c.rowSpan)).filterMap (fun y =>
      if x = 0 ∧ y = 0 then none
      else some ⟨x + colIndex, y + rowIndex, if 0 < x then .left else .top⟩))

/-- JS `arr.splice(i, 0, a)`: insert `a` at index `i`, clamping `i` to the
array length (take/drop clamp exactly as `splice` does). -/
def spliceInsert (i : ℕ) (a : α) (l : List α) : List α :=
  l.take i ++ [a] ++ l.drop i

/-- The loop body of `createRowCells`, recursing over the remaining column
boundary pairs while carrying the current `colIndex`, the (spliceable) raw
`row`, and the shared `spannedCells` list.  The spanned branch reads
`rows[rowIndex]`, which in JS throws when `rowIndex` is out of range of the
descriptor's `rows` list; this is the `Except.error` case. -/
def rowCellsGo (pageHeight : ℚ) (pageWords : List Word) (rowBounds : List (ℚ × ℚ))
    (rowIndex : ℕ) (nCols : ℕ) :
    List (ℚ × ℚ) → ℕ → List (Option RawCell) → List SpannedCellPosition →
    Except String (List Cell × List SpannedCellPosition)
  | [], _, _, spanned => .ok ([], spanned)
  | colPair :: colsRest, colIndex, row, spanned =>
    match spanned.find? (fun sc => decide (sc.x = colIndex ∧ sc.y = rowIndex)) with
    | some sc =>
      match rowBounds.get? rowIndex with
      | none => .error "TypeError: rows[rowIndex] is undefined"
      | some yPair =>
        let x1 := colPair.1
        let x2 := colPair.2
        let y1 := pageHeight - yPair.1
        let y2 := pageHeight - yPair.2
        let box : BoundingBox := ⟨x1, y1, x2 - x1, y2 - y1⟩
        let row' := if row.length < nCols then spliceInsert colIndex none row else row
        match rowCellsGo pageHeight pageWords rowBounds rowIndex nCols colsRest
            (colIndex + 1) row' spanned with
        | .error e => .error e
        | .ok (rest, sp') => .ok (Cell.spanned box sc.direction :: rest, sp')
    | none =>
      match (row.get? colIndex).bind id with
      | some c =>
        let spanned' := spanned ++ registerSpans c colIndex rowIndex
        let cellBounds : BoundingBox :=
          ⟨c.location.x, pageHeight - c.location.y, c.size.width, c.size.height⟩
        let tc : TableCell :=
          ⟨cellBounds, c.colSpan, c.rowSpan, wordsInCellBox cellBounds pageWords⟩
        match rowCellsGo pageHeight pageWords rowBounds rowIndex nCols colsRest
            (colIndex + 1) row spanned' with
        | .error e => .error e
        | .ok (rest, sp') => .ok (Cell.cell tc :: rest, sp')
      | none =>
        rowCellsGo pageHeight pageWords rowBounds rowIndex nCols colsRest
          (colIndex + 1) row spanned

/-- `createRowCells`: scan the grid columns of one raw row, emitting a
`SpannedTableCell` at pre-registered spanned positions and a `TableCell`
where a raw cell exists, and returning the updated `spannedCells` list. -/
def createRowCells (row : List (Option RawCell)) (rowIndex : ℕ) (pageHeight : ℚ)
    (pageWords : List Word) (spannedCells : List SpannedCellPosition)
    (cols : List (ℚ × ℚ)) (rows : List (ℚ × ℚ)) :
    Except String (List Cell × List SpannedCellPosition) :=
  rowCellsGo pageHeight pageWords rows rowIndex cols.length cols 0 row spannedCells

/-- Minimum of a list of rationals, as `Math.min(...)` over a spread.
`Math.min()` of an empty spread is `Infinity`, which `ℚ` cannot represent;
the module only reads these extrema through row boxes, and every theorem
about row boxes assumes at least one cell, so the empty case is fixed at 0. -/
def qMin : List ℚ → ℚ
  | [] => 0
  | x :: xs => xs.foldl min x

/-- Maximum of a list of rationals, as `Math.max(...)`; empty case as in
`qMin`. -/
def qMax : List ℚ → ℚ
  | [] => 0
  | x :: xs => xs.foldl max x

/-- The row box computed by `createRows`: `minLeft`, `minTop`,
`maxRight - minLeft`, `minBottom - minTop` over the row's cells (every cell
built by the module carries a box, so the `!!tc.box` filter is the
identity here). -/
def rowBoxOf (cells : List Cell) : BoundingBox :=
  let maxRight := qMax (cells.map (fun c => c.box.right))
  let minLeft := qMin (cells.map (fun c => c.box.left))
  let minTop := qMin (cells.map (fun c => c.box.top))
  let minBottom := qMin (cells.map (fun c => c.box.bottom))
  ⟨minLeft, minTop, maxRight - minLeft, minBottom - minTop⟩

/-- Modelled from the spec: the claim's "bounding rectangle over those
cells" (spec §3, §4.2 step 3) — min left/top, max right/bottom. -/
def boundingRectOf (cells : List Cell) : BoundingBox :=
  let maxRight := qMax (cells.map (fun c => c.box.right))
  let minLeft := qMin (cells.map (fun c => c.box.left))
  let minTop := qMin (cells.map (fun c => c.box.top))
  let maxBottom := qMax (cells.map (fun c => c.box.bottom))
  ⟨minLeft, minTop, maxRight - minLeft, maxBottom - minTop⟩

/-- Modelled from the spec: `page.getElementsOfType<Word>(Word)` is defined
outside the sample; spec §4.2 reads it as "the page's current Word set",
collected from the element tree (top-level words and words already owned by
table cells). -/
def pageWordsOf (page : Page) : List Word :=
  page.elements.flatMap (fun e =>
    match e with
    | .word w => [w]
    | .table t => t.content.flatMap (fun r => r.content.flatMap (fun c =>
        match c with
        | .cell tc => tc.content
        | .spanned _ _ => []))
    | .other _ => [])

/-- The body of `createRows`: map the raw cell grid row by row, threading
the shared `spannedCells` list between row calls. -/
def createRowsGo (data : RawTable) (pageHeight : ℚ) (pageWords : List Word) :
    List (List (Option RawCell)) → ℕ → List SpannedCellPosition →
    Except String (List TableRow)
  | [], _, _ => .ok []
  | row :: rest, rowIndex, spanned =>
    match createRowCells row rowIndex pageHeight pageWords spanned data.cols data.rows with
    | .error e => .error e
    | .ok (tableCells, spanned') =>
      match createRowsGo data pageHeight pageWords rest (rowIndex + 1) spanned' with
      | .error e => .error e
      | .ok rows' => .ok (⟨tableCells, rowBoxOf tableCells⟩ :: rows')

/-- `createRows`: reconstruct every row of the raw descriptor against the
page's words. -/
def createRows (data : RawTable) (page : Page) : Except String (List TableRow) :=
  createRowsGo data page.box.height (pageWordsOf page) data.cells 0 []

/-- `createTable`: the empty table with the descriptor's y-flipped box. -/
def createTable (data : RawTable) (pageHeight : ℚ) : Table :=
  ⟨[], ⟨data.location.x, pageHeight - data.location.y, data.size.width, data.size.height⟩⟩

/-- `existPreviousRow`: the first row whose ceiling-rounded bottom equals
the ceiling-rounded top of the row at `rowIndex` (`filter(...).shift()`). -/
def existPreviousRow (rowIndex : ℕ) (t : Table) : Option TableRow :=
  (t.content.get? rowIndex).bind (fun row =>
    (t.content.filter (fun r => decide (⌈r.box.top + r.box.height⌉ = ⌈row.box.top⌉))).head?)

/-- `existAdjacentRow`: for the last row, fall back to `existPreviousRow`;
otherwise the first row whose ceiling-rounded top equals the ceiling-rounded
bottom of the row at `rowIndex`. -/
def existAdjacentRow (rowIndex : ℕ) (t : Table) : Option TableRow :=
  if rowIndex + 1 = t.content.length then existPreviousRow rowIndex t
  else
    (t.content.get? rowIndex).bind (fun row =>
      (t.content.filter (fun r => decide (⌈r.box.top⌉ = ⌈row.box.top + row.box.height⌉))).head?)

/-- `isFalseTable`: exactly one row, or some row index with no adjacent row
(`table.content.some((_, index) => !existAdjacentRow(index, table))`). -/
def isFalseTable (t : Table) : Bool :=
  let isFalse := (List.range t.content.length).any (fun i => (existAdjacentRow i t).isNone)
  let only1Row := t.content.length = 1
  only1Row || isFalse

/-- Modelled from the spec: `utils.groupConsecutiveNumbersInArray` is
defined outside the sample; spec §4.3 step 2: "Group consecutive candidate
column indices into maximal runs."  The input is produced in ascending
order. -/
def groupConsecutive : List ℕ → List (List ℕ)
  | [] => []
  | x :: xs =>
    match groupConsecutive xs with
    | [] => [[x]]
    | [] :: gs => [x] :: [] :: gs
    | (y :: g) :: gs => if y = x + 1 then (x :: y :: g) :: gs else [x] :: (y :: g) :: gs

/-- The candidate columns of one row: the indices `nCol` of the expected
text row whose reconstructed cell text differs from the expected text
(`tableContent[nRow].content[nCol].toString() !== cellStr.toString()`).
Reading past the end of the reconstructed row is a JS `TypeError`
(`undefined.toString()`). -/
def rowCandidatesGo (cells : List Cell) : ℕ → List JSString → Except String (List ℕ)
  | _, [] => .ok []
  | nCol, cellStr :: rest =>
    match cells.get? nCol with
    | none => .error "TypeError: tableContent row has no cell at nCol"
    | some c =>
      match rowCandidatesGo cells (nCol + 1) rest with
      | .error e => .error e
      | .ok l => .ok (if c.text ≠ cellStr then nCol :: l else l)

/-- The per-row candidate positions for one expected-text row, starting at
column 0. -/
def rowCandidates (cells : List Cell) (dataRow : List JSString) : Except String (List ℕ) :=
  rowCandidatesGo cells 0 dataRow

/-- `getMergeCandidateCellPositions`: per expected-text row, the maximal
consecutive runs of candidate columns, discarding runs of length 1 and rows
left with no runs.  Row keys are produced in ascending order, as JS
iterates the numeric keys of the object. -/
def getMergeCandidateCellPositionsGo (tableContent : List TableRow) :
    List (List JSString) → ℕ → Except String (List (ℕ × List (List ℕ)))
  | [], _ => .ok []
  | dataRow :: rest, nRow =>
    -- `tableContent[nRow].content[nCol]` is evaluated inside the column
    -- loop, so an out-of-range row only throws when `dataRow` is nonempty.
    match
      (match dataRow.isEmpty, tableContent.get? nRow with
        | true, _ => .ok []
        | false, none => .error "TypeError: tableContent[nRow] is undefined"
        | false, some row => rowCandidates row.content dataRow :
        Except String (List ℕ)) with
    | .error e => .error e
    | .ok cands =>
      match getMergeCandidateCellPositionsGo tableContent rest (nRow + 1) with
      | .error e => .error e
      | .ok tail =>
        let runs := (groupConsecutive cands).filter (fun g => decide (1 < g.length))
        .ok (if runs.isEmpty then tail else (nRow, runs) :: tail)

/-- `getMergeCandidateCellPositions` from row 0. -/
def getMergeCandidateCellPositions (tableContent : List TableRow)
    (tableData : List (List JSString)) : Except String (List (ℕ × List (List ℕ))) :=
  getMergeCandidateCellPositionsGo tableContent tableData 0

/-- The expected text of a subgroup: each expected cell text trimmed,
space-joined, trimmed (`cellSubGroup.map(c => tableData[cellRow][c].trim()).join(' ').trim()`).
The subgroup's columns always come from candidate positions, hence are in
range of the expected row; out-of-range reads default to the empty string. -/
def subGroupExpectedText (dataRow : List JSString) (sub : List ℕ) : JSString :=
  jsTrim (List.intercalate [' '] (sub.map (fun c => jsTrim ((dataRow.get? c).getD []))))

/-- The actual text of a subgroup: the row's cells filtered by index
membership (`content.filter((_, index) => cellSubGroup.includes(index))`),
each `toString().trim()`, space-joined, trimmed. -/
def subGroupActualText (rowCells : List Cell) (sub : List ℕ) : JSString :=
  jsTrim (List.intercalate [' ']
    ((rowCells.enum.filter (fun p => sub.contains p.1)).map (fun p => jsTrim p.2.text)))

/-- One iteration of the subgroup loop of `joinCellsByContent`: commit the
subgroup when its expected text equals its actual text, reset it when the
actual text is longer or equal, then push the next run element. -/
def runLoopStep (dataRow : List JSString) (rowCells : List Cell) (g : List ℕ)
    (st : List (List ℕ) × List ℕ) (i : ℕ) : List (List ℕ) × List ℕ :=
  let groups := st.1
  let sub := st.2
  let expText := subGroupExpectedText dataRow sub
  let actText := subGroupActualText rowCells sub
  let groups' := if expText = actText then groups ++ [sub] else groups
  let sub' := if actText.length > expText.length ∨ expText = actText then [] else sub
  let sub'' :=
    match g.get? (i + 1) with
    | some nxt => sub' ++ [nxt]
    | none => sub'
  (groups', sub'')

/-- The subgroup loop of `joinCellsByContent` over one candidate run `g`:
start from `[g[0]]` and iterate once per element of the run, returning the
committed merge groups. -/
def runLoop (dataRow : List JSString) (rowCells : List Cell) (g : List ℕ) :
    List (List ℕ) :=
  ((List.range g.length).foldl (runLoopStep dataRow rowCells g)
    ([], match g.head? with | some h => [h] | none => [])).1

/-- All merge groups committed for one row: the concatenation of the groups
of each of the row's candidate runs, in run order. -/
def mergeGroupsForRow (dataRow : List JSString) (rowCells : List Cell)
    (runs : List (List ℕ)) : List (List ℕ) :=
  runs.foldl (fun acc g => acc ++ runLoop dataRow rowCells g) []

/-- The union of two boxes (used by the modelled `mergeCells`). -/
def BoundingBox.union (a b : BoundingBox) : BoundingBox :=
  ⟨min a.left b.left, min a.top b.top,
    max a.right b.right - min a.left b.left,
    max a.bottom b.bottom - min a.top b.top⟩

/-- Modelled from the spec: `TableRow.mergeCells` is defined outside the
sample; spec §4.3 step 4: "each group's cells are coalesced into one cell
whose box is the union of the group's boxes and whose word content is the
concatenation in left-to-right order; cells outside any group are
unchanged." -/
def mergeCells (row : TableRow) (groups : List (List ℕ)) : TableRow :=
  let merged := row.content.enum.filterMap (fun p =>
    match groups.find? (fun g => g.head? = some p.1) with
    | some g =>
      let members := (row.content.enum.filter (fun q => g.contains q.1)).map (fun q => q.2)
      let boxes := members.map Cell.box
      let unionBox :=
        match boxes with
        | [] => p.2.box
        | b :: bs => bs.foldl BoundingBox.union b
      let words := members.flatMap (fun c =>
        match c with
        | .cell tc => tc.content
        | .spanned _ _ => [])
      some (Cell.cell ⟨unionBox, none, none, words⟩)
    | none =>
      if groups.any (fun g => g.contains p.1) then none else some p.2)
  ⟨merged, row.box⟩

/-- `joinCellsByContent`: compute the candidate runs for every row, then per
row collect the committed merge groups and, when any exist, merge that
row's cells. -/
def joinCellsByContent (tableContent : List TableRow) (tableData : List (List JSString)) :
    Except String (List TableRow) :=
  match getMergeCandidateCellPositions tableContent tableData with
  | .error e => .error e
  | .ok mergeCandidateCells =>
    .ok (mergeCandidateCells.foldl (fun content p =>
      let cellRow := p.1
      let row := (content.get? cellRow).getD ⟨[], ⟨0, 0, 0, 0⟩⟩
      let dataRow := (tableData.get? cellRow).getD []
      let groupsToMerge := mergeGroupsForRow dataRow row.content p.2
      if groupsToMerge.isEmpty then content
      else content.set cellRow (mergeCells row groupsToMerge)) tableContent)

/-- The table value `addTable` builds before the validity check: descriptor
box, reconstructed rows, and — when the descriptor carries a `content` grid
and its flavor is `stream` — the content-reconciliation merge. -/
def buildTable (tableData : RawTable) (page : Page) : Except String Table :=
  let pageHeight := page.box.height
  let t := createTable tableData pageHeight
  match createRows tableData page with
  | .error e => .error e
  | .ok rows =>
    match tableData.content with
    | some grid =>
      if tableData.flavor = "stream" then
        match joinCellsByContent rows grid with
        | .error e => .error e
        | .ok rows' => .ok ⟨rows', t.box⟩
      else .ok ⟨rows, t.box⟩
    | none => .ok ⟨rows, t.box⟩

/-- `addTable`: build the table and append it to the page's element list
exactly when `isFalseTable` rejects it not. -/
def addTable (tableData : RawTable) (page : Page) : Except String Page :=
  match buildTable tableData page with
  | .error e => .error e
  | .ok t =>
    if isFalseTable t then .ok page
    else .ok ⟨page.elements ++ [Element.table t], page.box⟩

/-- One `addTable` call at the 1-based page number of a payload entry:
`doc.pages[pageData.page - 1]` is `undefined` for an out-of-range index, and
`addTable` then throws on `page.box.height`. -/
def addTableAtPage (pageNum : ℤ) (t : RawTable) (doc : Document) :
    Except String Document :=
  let idx := pageNum - 1
  if idx < 0 then .error "TypeError: doc.pages[page - 1] is undefined"
  else
    match doc.pages.get? idx.toNat with
    | none => .error "TypeError: doc.pages[page - 1] is undefined"
    | some page =>
      match addTable t page with
      | .error e => .error e
      | .ok page' => .ok ⟨doc.pages.set idx.toNat page'⟩

/-- `addTables`: every table of every payload entry, in payload order. -/
def addTables (tablesData : List PageData) (doc : Document) : Except String Document :=
  tablesData.foldlM (fun d pd => pd.tables.foldlM (fun d' t => addTableAtPage pd.page t d') d) doc

/-- Modelled from the spec: `page.getElementsOfType<TableCell>(TableCell)`
is defined outside the sample; spec §4.5 collects "the set of Word ids
referenced by any TableCell on that page", i.e. every `TableCell` of every
table attached to the page. -/
def pageTableCells (page : Page) : List TableCell :=
  page.elements.flatMap (fun e =>
    match e with
    | .table t => t.content.flatMap (fun r => r.content.filterMap (fun c =>
        match c with
        | .cell tc => some tc
        | .spanned _ _ => none))
    | _ => [])

/-- The word ids referenced by the page's table cells
(`map(cell => cell.content).reduce(concat).map(e => e.id)`). -/
def cellWordsIds (page : Page) : List ℕ :=
  ((pageTableCells page).map (fun c => c.content)).flatten.map (fun w => w.id)

/-- `removeWordsUsedInCells`: on every page, keep an element exactly when it
is a word not referenced by a cell, or not a word at all
(`(isWord && !isUsedInCell) || !isWord`). -/
def removeWordsUsedInCells (doc : Document) : Document :=
  ⟨doc.pages.map (fun page =>
    let ids := cellWordsIds page
    ⟨page.elements.filter (fun e =>
      match e with
      | .word w => !(ids.contains w.id)
      | _ => true), page.box⟩)⟩

/-- Modelled from the spec: `doc.getElementsOfType<Table>(Table)` is
defined outside the sample; the guard checks whether any page holds a
`Table` element. -/
def docHasTables (doc : Document) : Bool :=
  doc.pages.any (fun p => p.elements.any (fun e =>
    match e with
    | .table _ => true
    | _ => false))

/-- One iteration of `main`'s pass loop: a zero status parses the stdout
(throwing on malformed JSON), adds the tables and deduplicates the words; a
non-zero status leaves the document untouched. -/
def runPass (doc : Document) (r : PassResult) : Except String Document :=
  if r.status = 0 then
    match r.payload with
    | none => .error "SyntaxError: JSON.parse on malformed stdout"
    | some tablesData =>
      match addTables tablesData doc with
      | .error e => .error e
      | .ok doc' => .ok (removeWordsUsedInCells doc')
  else .ok doc

/-- The pass loop of `main`: one `PassResult` per entry of
`options.runConfig` (the extractor invocation itself is an external
process, modelled by its result); an exception escaping one iteration
aborts the remaining iterations. -/
def runPasses (doc : Document) : List PassResult → Except String Document
  | [] => .ok doc
  | r :: rest =>
    match runPass doc r with
    | .error e => .error e
    | .ok d => runPasses d rest

/-- `main` from the document-already-has-tables guard on (the filesystem
and file-type pre-checks are I/O and return the document unchanged when
they fail; they sit outside the embedding). -/
def main (doc : Document) (results : List PassResult) : Except String Document :=
  if docHasTables doc then .ok doc else runPasses doc results

/-!  ## Helper lemmas  -/

/-- The claim's adjacency condition for the row at index `i`: the claim's
"some row whose ceiling-rounded top equals this row's ceiling-rounded
bottom", with the last row checked symmetrically against a row above it. -/
def rowLacksNeighbor (t : Table) (i : ℕ) (row : TableRow) : Prop :=
  if i + 1 = t.content.length then
    ¬ ∃ r ∈ t.content, ⌈r.box.top + r.box.height⌉ = ⌈row.box.top⌉
  else
    ¬ ∃ r ∈ t.content, ⌈r.box.top⌉ = ⌈row.box.top + row.box.height⌉

/-- `existAdjacentRow` finds nothing exactly when the claim's adjacency
condition fails for the row at `i`. -/
theorem existAdjacentRow_isNone_iff (t : Table) (i : ℕ) (row : TableRow)
    (hrow : t.content.get? i = some row) :
    (existAdjacentRow i t).isNone = true ↔ rowLacksNeighbor t i row := by
  unfold existAdjacentRow existPreviousRow rowLacksNeighbor
  split
  · rw [hrow]
    simp only [Option.some_bind, Option.isNone_iff_eq_none, List.head?_eq_none_iff,
      List.filter_eq_nil_iff, decide_eq_true_eq]
    constructor
    · intro h hex
      obtain ⟨r, hr, he⟩ := hex
      exact h r hr he
    · intro h r hr he
      exact h ⟨r, hr, he⟩
  · rw [hrow]
    simp only [Option.some_bind, Option.isNone_iff_eq_none, List.head?_eq_none_iff,
      List.filter_eq_nil_iff, decide_eq_true_eq]
    constructor
    · intro h hex
      obtain ⟨r, hr, he⟩ := hex
      exact h r hr he
    · intro h r hr he
      exact h ⟨r, hr, he⟩

/-- C3 (confirmed): a reconstructed table is appended to the page's element
list iff `isFalseTable` rejects it not; `isFalseTable` holds exactly when
the table has exactly one row or some row lacks a vertically adjacent
neighbor in the claim's rounded-boundary sense; a one-row table is never
appended; a rejected candidate leaves the element list unchanged. -/
theorem C3_theorem (data : RawTable) (page : Page) (t : Table)
    (h : buildTable data page = .ok t) :
    (addTable data page = .ok (if isFalseTable t then page
        else ⟨page.elements ++ [Element.table t], page.box⟩)) ∧
    (isFalseTable t = true ↔ t.content.length = 1 ∨
      ∃ i row, t.content.get? i = some row ∧ rowLacksNeighbor t i row) ∧
    (t.content.length = 1 → addTable data page = .ok page) ∧
    (isFalseTable t = true → addTable data page = .ok page) := by
  have hiff : isFalseTable t = true ↔ t.content.length = 1 ∨
      ∃ i row, t.content.get? i = some row ∧ rowLacksNeighbor t i row := by
    unfold isFalseTable
    simp only [Bool.or_eq_true, decide_eq_true_eq, List.any_eq_true, List.mem_range]
    constructor
    · rintro (h1 | ⟨i, hi, hnone⟩)
      · exact Or.inl h1
      · have hrow : t.content.get? i = some (t.content.get ⟨i, hi⟩) := List.get?_eq_get hi
        exact Or.inr ⟨i, _, hrow, (existAdjacentRow_isNone_iff t i _ hrow).mp hnone⟩
    · rintro (h1 | ⟨i, row, hrow, hlacks⟩)
      · exact Or.inl h1
      · refine Or.inr ⟨i, (List.get?_eq_some.mp hrow).1, ?_⟩
        exact (existAdjacentRow_isNone_iff t i row hrow).mpr hlacks
  have hadd : addTable data page = .ok (if isFalseTable t then page
      else ⟨page.elements ++ [Element.table t], page.box⟩) := by
    by_cases hf : isFalseTable t <;> simp [addTable, h, hf]
  refine ⟨hadd, hiff, ?_, ?_⟩
  · intro h1
    have : isFalseTable t = true := hiff.mpr (Or.inl h1)
    rw [hadd, this]
    simp
  · intro hfalse
    rw [hadd, hfalse]
    simp

/-- Witness for `C3_theorem`: a concrete two-row, vertically adjacent table
built from a raw descriptor, which the heuristic accepts and `addTable`
appends. -/
theorem C3_witness :
    (addTable
      (⟨⟨0, 100⟩, ⟨10, 20⟩, [(0, 10)], [(0, 10), (10, 20)],
        [[some ⟨⟨0, 100⟩, ⟨10, 10⟩, none, none⟩], [some ⟨⟨0, 90⟩, ⟨10, 10⟩, none, none⟩]],
        none, "lattice"⟩ : RawTable)
      (⟨[], ⟨0, 0, 100, 100⟩⟩ : Page) =
      .ok (if isFalseTable
            ⟨[⟨[Cell.cell ⟨⟨0, 0, 10, 10⟩, none, none, []⟩], ⟨0, 0, 10, 10⟩⟩,
              ⟨[Cell.cell ⟨⟨0, 10, 10, 10⟩, none, none, []⟩], ⟨0, 10, 10, 10⟩⟩],
              ⟨0, 0, 10, 20⟩⟩
          then (⟨[], ⟨0, 0, 100, 100⟩⟩ : Page)
          else ⟨[] ++ [Element.table
            ⟨[⟨[Cell.cell ⟨⟨0, 0, 10, 10⟩, none, none, []⟩], ⟨0, 0, 10, 10⟩⟩,
              ⟨[Cell.cell ⟨⟨0, 10, 10, 10⟩, none, none, []⟩], ⟨0, 10, 10, 10⟩⟩],
              ⟨0, 0, 10, 20⟩⟩], ⟨0, 0, 100, 100⟩⟩)) := by
  have hb : buildTable
      (⟨⟨0, 100⟩, ⟨10, 20⟩, [(0, 10)], [(0, 10), (10, 20)],
        [[some ⟨⟨0, 100⟩, ⟨10, 10⟩, none, none⟩], [some ⟨⟨0, 90⟩, ⟨10, 10⟩, none, none⟩]],
        none, "lattice"⟩ : RawTable)
      (⟨[], ⟨0, 0, 100, 100⟩⟩ : Page) =
      .ok ⟨[⟨[Cell.cell ⟨⟨0, 0, 10, 10⟩, none, none, []⟩], ⟨0, 0, 10, 10⟩⟩,
            ⟨[Cell.cell ⟨⟨0, 10, 10, 10⟩, none, none, []⟩], ⟨0, 10, 10, 10⟩⟩],
            ⟨0, 0, 10, 20⟩⟩ := by
    norm_num [buildTable, createTable, createRows, createRowsGo, createRowCells, rowCellsGo,
      rowBoxOf, qMin, qMax, wordsInCellBox, pageWordsOf, Cell.box, BoundingBox.right,
      BoundingBox.bottom, registerSpans, effSpan, List.range_succ, List.range_zero]
  exact (C3_theorem _ _ _ hb).1

/-!  ## Claim C10  -/

/-- A one-page document for the out-of-range payload. -/
def c10Doc : Document := ⟨[⟨[], ⟨0, 0, 100, 100⟩⟩]⟩

/-- A well-formed raw descriptor (1×1 grid, null entry). -/
def c10Raw : RawTable :=
  ⟨⟨0, 0⟩, ⟨10, 10⟩, [(0, 10)], [(0, 10)], [[none]], none, "lattice"⟩

/-- A successful pass whose payload targets page 2 of a one-page document. -/
def c10Pass : PassResult := ⟨0, some [⟨2, [c10Raw]⟩]⟩

/-- C10 (confirmed): a payload entry with page number `p` is reconstructed
against and attached only to the document page at index `p - 1` — every
other page is untouched — and the page number is not validated: a payload
whose page number exceeds the page count makes the whole stage throw
(`doc.pages[page - 1]` is `undefined`). -/
theorem C10_theorem (doc : Document) (pageNum : ℤ) (t : RawTable) (page page' : Page)
    (hp : 0 ≤ pageNum - 1)
    (hlook : doc.pages.get? (pageNum - 1).toNat = some page)
    (hadd : addTable t page = .ok page') :
    (addTableAtPage pageNum t doc = .ok ⟨doc.pages.set (pageNum - 1).toNat page'⟩) ∧
    (∀ j, j ≠ (pageNum - 1).toNat →
      (doc.pages.set (pageNum - 1).toNat page').get? j = doc.pages.get? j) ∧
    main c10Doc [c10Pass] = .error "TypeError: doc.pages[page - 1] is undefined" := by
  refine ⟨?_, ?_, ?_⟩
  · simp only [addTableAtPage, if_neg (show ¬ pageNum - 1 < 0 by omega), hlook, hadd]
  · intro j hj
    simp only [List.get?_eq_getElem?]
    exact List.getElem?_set_ne (fun hh => hj hh.symm)
  · rfl

/-- Witness for `C10_theorem`: a concrete in-range attachment at page 1. -/
theorem C10_witness :
    (addTableAtPage 1 c10Raw c10Doc =
      .ok ⟨c10Doc.pages.set ((1 : ℤ) - 1).toNat ⟨[], ⟨0, 0, 100, 100⟩⟩⟩) ∧
    (∀ j, j ≠ ((1 : ℤ) - 1).toNat →
      (c10Doc.pages.set ((1 : ℤ) - 1).toNat ⟨[], ⟨0, 0, 100, 100⟩⟩).get? j =
        c10Doc.pages.get? j) ∧
    main c10Doc [c10Pass] = .error "TypeError: doc.pages[page - 1] is undefined" := by
  have h := C10_theorem c10Doc 1 c10Raw ⟨[], ⟨0, 0, 100, 100⟩⟩ ⟨[], ⟨0, 0, 100, 100⟩⟩
    (by norm_num)
    (by norm_num [c10Doc])
    (by norm_num [addTable, buildTable, createTable, createRows, createRowsGo,
      createRowCells, rowCellsGo, rowBoxOf, qMin, qMax, wordsInCellBox, pageWordsOf,
      isFalseTable, existAdjacentRow, existPreviousRow, c10Raw])
  exact h

/-!  ## Claim C6  -/

/-- A failing pass is the identity on the document. -/
theorem runPass_failure (doc : Document) (p : PassResult) (h : p.status ≠ 0) :
    runPass doc p = .ok doc := by
  simp [runPass, h]

/-- C6 (confirmed): a pass on which the extractor reports a non-zero status
adds no tables and removes no words — it leaves the document unchanged —
and the loop continues with the remaining configured passes: deleting the
failing pass from the pass list does not change the stage's result. -/
theorem C6_theorem (p : PassResult) (hfail : p.status ≠ 0) :
    (∀ doc, runPass doc p = .ok doc) ∧
    ∀ (doc : Document) (ps₁ ps₂ : List PassResult),
      runPasses doc (ps₁ ++ p :: ps₂) = runPasses doc (ps₁ ++ ps₂) := by
  refine ⟨fun doc => runPass_failure doc p hfail, ?_⟩
  intro doc ps₁
  induction ps₁ generalizing doc with
  | nil =>
    intro ps₂
    simp [runPasses, runPass_failure doc p hfail]
  | cons q qs ih =>
    intro ps₂
    simp only [List.cons_append, runPasses]
    cases hq : runPass doc q with
    | error e => rfl
    | ok d => exact ih d ps₂

/-- Witness for `C6_theorem`: a concrete failing pass between two empty
pass lists on a one-page document. -/
theorem C6_witness :
    (∀ doc, runPass doc ⟨1, none⟩ = .ok doc) ∧
    ∀ (doc : Document) (ps₁ ps₂ : List PassResult),
      runPasses doc (ps₁ ++ (⟨1, none⟩ : PassResult) :: ps₂) = runPasses doc (ps₁ ++ ps₂) :=
  C6_theorem ⟨1, none⟩ (by decide)

/-!  ## Claim C2  -/

/-- A one-page document with no elements. -/
def c2Doc : Document := ⟨[⟨[], ⟨0, 0, 100, 100⟩⟩]⟩

/-- A successful pass whose stdout is not valid JSON. -/
def c2BadPass : PassResult := ⟨0, none⟩

/-- A successful pass with a well-formed empty payload. -/
def c2GoodPass : PassResult := ⟨0, some []⟩

/-- C2: the claim is false — a malformed extractor payload on a successful
pass does not stay confined to that pass: `JSON.parse` throws with no
handler inside the loop, the stage's entry point propagates the exception
instead of returning a Document, and the remaining configured passes never
run (the same pass list without the malformed pass succeeds). -/
theorem C2_counterexample :
    main c2Doc [c2BadPass, c2GoodPass] =
      .error "SyntaxError: JSON.parse on malformed stdout" ∧
    main c2Doc [c2GoodPass] = .ok c2Doc := by
  constructor <;> rfl

/-- C2 (amended): a malformed raw payload on a status-zero pass aborts the
whole stage: the parse exception propagates past the stage boundary
unhandled, and no later configured pass runs.  Only an extractor failure
(non-zero status) is confined to its own pass. -/
theorem C2_theorem (doc : Document) (p : PassResult) (rest : List PassResult)
    (hstatus : p.status = 0) (hmalformed : p.payload = none) :
    runPasses doc (p :: rest) = .error "SyntaxError: JSON.parse on malformed stdout" := by
  simp [runPasses, runPass, hstatus, hmalformed]

/-- Witness for `C2_theorem` at the concrete document and passes of the
counterexample's shape (a distinct malformed pass). -/
theorem C2_witness :
    runPasses c2Doc [(⟨0, none⟩ : PassResult), ⟨2, some []⟩] =
      .error "SyntaxError: JSON.parse on malformed stdout" :=
  C2_theorem c2Doc ⟨0, none⟩ [⟨2, some []⟩] rfl rfl

/-!  ## Claim C4  -/

/-- Whether an element is a `Word`. -/
def isWordElem : Element → Bool
  | .word _ => true
  | _ => false

/-- The deduplication invariant: no page holds a top-level `Word` whose id
is referenced by a `TableCell` of the same page. -/
def dedupOK (doc : Document) : Prop :=
  ∀ page ∈ doc.pages, ∀ w : Word, Element.word w ∈ page.elements →
    ¬ w.id ∈ cellWordsIds page

/-- Filtering a list does not change a `flatMap` whose function vanishes on
every dropped element. -/
theorem filter_flatMap_eq {β : Type} (l : List Element) (p : Element → Bool)
    (f : Element → List β) (h : ∀ e, p e = false → f e = []) :
    (l.filter p).flatMap f = l.flatMap f := by
  induction l with
  | nil => rfl
  | cons e rest ih =>
    by_cases hp : p e = true
    · simp [List.filter_cons, hp, ih]
    · have hfe : f e = [] := h e (by simpa using hp)
      simp [List.filter_cons, hp, hfe, ih]

/-- The word filter of `removeWordsUsedInCells` leaves the page's table
cells — and hence the referenced id set — unchanged. -/
theorem cellWordsIds_filter (pg : Page) (p : Element → Bool)
    (h : ∀ e, p e = false → isWordElem e = true) :
    cellWordsIds ⟨pg.elements.filter p, pg.box⟩ = cellWordsIds pg := by
  unfold cellWordsIds pageTableCells
  rw [filter_flatMap_eq]
  intro e hpe
  have := h e hpe
  cases e <;> simp_all [isWordElem]

/-- `removeWordsUsedInCells` establishes the deduplication invariant on any
document. -/
theorem dedupOK_removeWords (d : Document) : dedupOK (removeWordsUsedInCells d) := by
  intro page hpage w hw
  simp only [removeWordsUsedInCells, List.mem_map] at hpage
  obtain ⟨pg, hpg, hEq⟩ := hpage
  subst hEq
  simp only [List.mem_filter] at hw
  have hkeep : ((cellWordsIds pg).contains w.id) = false := by
    simpa using hw.2
  have hids : cellWordsIds ⟨pg.elements.filter (fun e =>
      match e with
      | Element.word v => !(cellWordsIds pg).contains v.id
      | _ => true), pg.box⟩ = cellWordsIds pg := by
    apply cellWordsIds_filter
    intro e hpe
    cases e with
    | word v => rfl
    | table t => simp at hpe
    | other i => simp at hpe
  rw [hids]
  intro hmem
  simp [hmem] at hkeep

/-- A document with no table element satisfies the deduplication invariant
vacuously: no page references any word id from a cell. -/
theorem dedupOK_of_no_tables (doc : Document) (h : docHasTables doc = false) :
    dedupOK doc := by
  intro page hpage w _ hmem
  have hnotable : ∀ e ∈ page.elements, (match e with
      | Element.table _ => true
      | _ => false) = false := by
    intro e he
    by_contra hc
    simp only [Bool.not_eq_false] at hc
    have : docHasTables doc = true := by
      simp only [docHasTables, List.any_eq_true]
      exact ⟨page, hpage, e, he, hc⟩
    rw [this] at h
    cases h
  have hcells : pageTableCells page = [] := by
    unfold pageTableCells
    rw [List.flatMap_eq_nil_iff]
    intro e he
    have := hnotable e he
    cases e <;> simp_all
  simp [cellWordsIds, hcells] at hmem

/-- `runPasses` preserves the deduplication invariant: a failed pass keeps
the document, and a successful pass ends in `removeWordsUsedInCells`. -/
theorem runPasses_dedupOK (rs : List PassResult) :
    ∀ (doc doc' : Document), dedupOK doc → runPasses doc rs = .ok doc' →
      dedupOK doc' := by
  induction rs with
  | nil =>
    intro doc doc' hdoc h
    simp only [runPasses, Except.ok.injEq] at h
    subst h
    exact hdoc
  | cons r rest ih =>
    intro doc doc' hdoc h
    simp only [runPasses] at h
    cases hr : runPass doc r with
    | error e => rw [hr] at h; cases h
    | ok d =>
      rw [hr] at h
      have hd : dedupOK d := by
        unfold runPass at hr
        split at hr
        · split at hr
          · cases hr
          · split at hr
            · cases hr
            · rename_i d2 ha
              cases hr
              exact dedupOK_removeWords d2
        · cases hr
          exact hdoc
      exact ih d doc' hd h

/-- C4 (amended): for a document that enters the stage with no pre-existing
`Table` element (the stage's documented precondition), after the stage
completes no page holds a top-level `Word` whose id is referenced by any
`TableCell` of that page; and the deduplication filter never removes a
non-`Word` element. -/
theorem C4_theorem (doc doc' : Document) (rs : List PassResult)
    (hguard : docHasTables doc = false) (h : main doc rs = .ok doc') :
    dedupOK doc' ∧
    ∀ (d : Document) (i : ℕ) (pg pg' : Page),
      d.pages.get? i = some pg →
      (removeWordsUsedInCells d).pages.get? i = some pg' →
      ∀ e ∈ pg.elements, isWordElem e = false → e ∈ pg'.elements := by
  constructor
  · have hmain : runPasses doc rs = .ok doc' := by
      simpa [main, hguard] using h
    exact runPasses_dedupOK rs doc doc' (dedupOK_of_no_tables doc hguard) hmain
  · intro d i pg pg' hpg hpg' e he hword
    simp only [removeWordsUsedInCells, List.get?_eq_getElem?, List.getElem?_map] at hpg'
    rw [List.get?_eq_getElem? d.pages i] at hpg
    rw [hpg] at hpg'
    simp only [Option.map_some', Option.some.injEq] at hpg'
    subst hpg'
    simp only [List.mem_filter]
    refine ⟨he, ?_⟩
    cases e with
    | word v => simp [isWordElem] at hword
    | table t => rfl
    | other j => rfl

/-- C4: the claim as stated is false for a document that reaches the stage
already carrying a table: the stage returns it unchanged, leaving a word id
both inside a `TableCell` and as a top-level page element. -/
def c4w : Word := ⟨1, ['w'], ⟨0, 0, 1, 1⟩⟩

/-- A pre-existing table whose single cell references `c4w`. -/
def c4tbl : Table :=
  ⟨[⟨[Cell.cell ⟨⟨0, 0, 1, 1⟩, none, none, [c4w]⟩], ⟨0, 0, 1, 1⟩⟩], ⟨0, 0, 1, 1⟩⟩

/-- A page holding both the loose word and the table referencing it. -/
def c4page : Page := ⟨[Element.word c4w, Element.table c4tbl], ⟨0, 0, 100, 100⟩⟩

/-- The document around `c4page`. -/
def c4doc : Document := ⟨[c4page]⟩

/-- C4 counterexample: the stage completes on `c4doc` (guard short-circuit)
yet word id 1 remains both referenced by a `TableCell` and present as a
top-level element of the same page. -/
theorem C4_counterexample :
    main c4doc [⟨0, some []⟩] = .ok c4doc ∧
    Element.word c4w ∈ c4page.elements ∧
    c4w.id ∈ cellWordsIds c4page := by
  refine ⟨rfl, List.mem_cons_self _ _, ?_⟩
  show (1 : ℕ) ∈ cellWordsIds c4page
  have : cellWordsIds c4page = [1] := rfl
  simp [this]

/-- Witness for `C4_theorem` on a concrete document with a non-word element
and no tables. -/
theorem C4_witness :
    dedupOK ⟨[⟨[Element.other 7], ⟨0, 0, 1, 1⟩⟩]⟩ :=
  (C4_theorem ⟨[⟨[Element.other 7], ⟨0, 0, 1, 1⟩⟩]⟩
    ⟨[⟨[Element.other 7], ⟨0, 0, 1, 1⟩⟩]⟩ [] rfl rfl).1

/-!  ## Claim C7  -/

/-- A word overlapping two raw cell boxes by more than 0.75 each. -/
def c7w : Word := ⟨5, ['x'], ⟨0, 0, 10, 10⟩⟩

/-- The document whose single page holds only `c7w`. -/
def c7Doc : Document := ⟨[⟨[Element.word c7w], ⟨0, 0, 100, 100⟩⟩]⟩

/-- A raw descriptor with two overlapping cells over the word in row 0 and
a vertically adjacent second row, so the table survives the validity
heuristic. -/
def c7Data : RawTable :=
  ⟨⟨0, 100⟩, ⟨20, 20⟩, [(0, 10), (10, 20)], [(100, 90), (90, 80)],
    [[some ⟨⟨0, 100⟩, ⟨10, 10⟩, none, none⟩, some ⟨⟨0, 100⟩, ⟨11, 10⟩, none, none⟩],
     [some ⟨⟨0, 90⟩, ⟨10, 10⟩, none, none⟩, some ⟨⟨10, 90⟩, ⟨10, 10⟩, none, none⟩]],
    none, "lattice"⟩

/-- One successful pass carrying `c7Data` for page 1. -/
def c7Pass : PassResult := ⟨0, some [⟨1, [c7Data]⟩]⟩

/-- The table the stage reconstructs from `c7Data`: both cells of row 0
reference `c7w`. -/
def c7TableAfter : Table :=
  ⟨[⟨[Cell.cell ⟨⟨0, 0, 10, 10⟩, none, none, [c7w]⟩,
      Cell.cell ⟨⟨0, 0, 11, 10⟩, none, none, [c7w]⟩], ⟨0, 0, 11, 10⟩⟩,
    ⟨[Cell.cell ⟨⟨0, 10, 10, 10⟩, none, none, []⟩,
      Cell.cell ⟨⟨10, 10, 10, 10⟩, none, none, []⟩], ⟨0, 10, 20, 10⟩⟩],
    ⟨0, 0, 20, 20⟩⟩

/-- The page after the stage completes: the word moved out of the flat
list, the accepted table attached. -/
def c7PageAfter : Page := ⟨[Element.table c7TableAfter], ⟨0, 0, 100, 100⟩⟩

/-- C7: the claim is false — the stage completes normally on `c7Doc`, the
reconstructed two-row table passes the validity heuristic and is attached,
and in the completed document the word with id 5 is referenced by the
content of two distinct `TableCell`s, because `wordsInCellBox` filters the
page words per cell with no exclusion of already-consumed words. -/
theorem C7_counterexample :
    main c7Doc [c7Pass] = .ok ⟨[c7PageAfter]⟩ ∧
    (⟨⟨0, 0, 10, 10⟩, none, none, [c7w]⟩ : TableCell) ∈ pageTableCells c7PageAfter ∧
    (⟨⟨0, 0, 11, 10⟩, none, none, [c7w]⟩ : TableCell) ∈ pageTableCells c7PageAfter ∧
    (⟨⟨0, 0, 10, 10⟩, none, none, [c7w]⟩ : TableCell) ≠
      ⟨⟨0, 0, 11, 10⟩, none, none, [c7w]⟩ ∧
    c7w ∈ (⟨⟨0, 0, 10, 10⟩, none, none, [c7w]⟩ : TableCell).content ∧
    c7w ∈ (⟨⟨0, 0, 11, 10⟩, none, none, [c7w]⟩ : TableCell).content := by
  have hcells : pageTableCells c7PageAfter =
      [⟨⟨0, 0, 10, 10⟩, none, none, [c7w]⟩, ⟨⟨0, 0, 11, 10⟩, none, none, [c7w]⟩,
       ⟨⟨0, 10, 10, 10⟩, none, none, []⟩, ⟨⟨10, 10, 10, 10⟩, none, none, []⟩] := rfl
  refine ⟨?_, ?_, ?_, ?_, List.mem_cons_self _ _, List.mem_cons_self _ _⟩
  · have hrows : createRows c7Data ⟨[Element.word c7w], ⟨0, 0, 100, 100⟩⟩ =
        .ok c7TableAfter.content := by
      norm_num [createRows, createRowsGo, createRowCells, rowCellsGo, rowBoxOf, qMin, qMax,
        wordsInCellBox, box1OverlapProportion, pageWordsOf, registerSpans, effSpan,
        Cell.box, BoundingBox.right, BoundingBox.bottom, BoundingBox.area,
        c7Data, c7w, c7TableAfter, List.range_succ, List.range_zero]
    have hbuild : buildTable c7Data ⟨[Element.word c7w], ⟨0, 0, 100, 100⟩⟩ =
        .ok c7TableAfter := by
      simp only [buildTable, hrows]
      norm_num [createTable, c7Data, c7TableAfter]
    have hadj0 : (existAdjacentRow 0 c7TableAfter).isNone = false := by
      norm_num [existAdjacentRow, existPreviousRow, c7TableAfter, BoundingBox.bottom]
    have hadj1 : (existAdjacentRow 1 c7TableAfter).isNone = false := by
      norm_num [existAdjacentRow, existPreviousRow, c7TableAfter, BoundingBox.bottom]
    have hlen : c7TableAfter.content.length = 2 := rfl
    have hfalse : isFalseTable c7TableAfter = false := by
      simp [isFalseTable, List.range_succ, List.range_zero, hadj0, hadj1, hlen]
    have haddT : addTable c7Data ⟨[Element.word c7w], ⟨0, 0, 100, 100⟩⟩ =
        .ok ⟨[Element.word c7w, Element.table c7TableAfter], ⟨0, 0, 100, 100⟩⟩ := by
      simp [addTable, hbuild, hfalse]
    have hadds : addTables [⟨1, [c7Data]⟩] c7Doc =
        .ok ⟨[⟨[Element.word c7w, Element.table c7TableAfter], ⟨0, 0, 100, 100⟩⟩]⟩ := by
      norm_num [addTables, addTableAtPage, haddT, c7Doc,
        List.foldlM_cons, List.foldlM_nil]
    have hrm : removeWordsUsedInCells
        ⟨[⟨[Element.word c7w, Element.table c7TableAfter], ⟨0, 0, 100, 100⟩⟩]⟩ =
        ⟨[c7PageAfter]⟩ := rfl
    have hguard : docHasTables c7Doc = false := rfl
    simp [main, hguard, runPasses, runPass, c7Pass, hadds, hrm]
  · rw [hcells]
    exact List.mem_cons_self _ _
  · rw [hcells]
    exact List.mem_cons_of_mem _ (List.mem_cons_self _ _)
  · simp only [ne_eq, TableCell.mk.injEq, BoundingBox.mk.injEq]
    norm_num

/-- C7 (amended): a `TableCell`'s content is exactly the page words whose
box overlaps the cell box in more than 0.75 of the word's own area; the
module never deduplicates across cells, so a word may be referenced by
several distinct cells whenever it clears that threshold for each of them. -/
theorem C7_theorem (w : Word) (cellBounds : BoundingBox) (pageWords : List Word) :
    w ∈ wordsInCellBox cellBounds pageWords ↔
      w ∈ pageWords ∧ (3 : ℚ)/4 < box1OverlapProportion w.box cellBounds := by
  simp [wordsInCellBox, List.mem_filter]

/-!  ## Claim C8  -/

/-- Raw descriptor of the claim's first example: `colSpan = 2` at grid
position `(1, 0)` in a three-column, one-row grid. -/
def c8aData : RawTable :=
  ⟨⟨0, 100⟩, ⟨30, 10⟩, [(0, 10), (10, 20), (20, 30)], [(100, 90)],
    [[some ⟨⟨0, 100⟩, ⟨10, 10⟩, none, none⟩,
      some ⟨⟨10, 100⟩, ⟨10, 10⟩, some 2, none⟩, none]],
    none, "lattice"⟩

/-- Raw descriptor of the claim's second example: `rowSpan = 2` at grid
position `(0, 0)` in a one-column, two-row grid. -/
def c8bData : RawTable :=
  ⟨⟨0, 100⟩, ⟨10, 20⟩, [(0, 10)], [(100, 90), (90, 80)],
    [[some ⟨⟨0, 100⟩, ⟨10, 10⟩, none, some 2⟩], [none]],
    none, "lattice"⟩

/-- Raw descriptor whose only cell's `colSpan = 2` overflows the
one-column grid. -/
def c8cData : RawTable :=
  ⟨⟨0, 100⟩, ⟨10, 10⟩, [(0, 10)], [(100, 90)],
    [[some ⟨⟨0, 100⟩, ⟨10, 10⟩, some 2, none⟩]],
    none, "lattice"⟩

/-- An empty page of height 100 for the C8 examples. -/
def c8Page : Page := ⟨[], ⟨0, 0, 100, 100⟩⟩

/-- C8: the claim is false as a universal statement — a span offset whose
target lies outside the scanned grid produces no `SpannedTableCell` at all:
with `colSpan = 2` on the only column, position `(1, 0)` is registered but
never scanned, and the reconstructed table holds no spanned cell. -/
theorem C8_counterexample :
    (createRows c8cData c8Page).map (fun rows => rows.map (fun r => r.content.map
      Cell.isSpanned)) = .ok [[false]] ∧
    registerSpans ⟨⟨0, 100⟩, ⟨10, 10⟩, some 2, none⟩ 0 0 = [⟨1, 0, Direction.left⟩] := by
  constructor
  · norm_num [createRows, createRowsGo, createRowCells, rowCellsGo, rowBoxOf, qMin, qMax,
      wordsInCellBox, pageWordsOf, registerSpans, effSpan, Cell.box, Cell.isSpanned,
      BoundingBox.right, BoundingBox.bottom, c8cData, c8Page,
      List.range_succ, List.range_zero, Except.map]
  · rfl

/-- C8 (amended): processing a raw cell at `(col, row)` registers exactly
the positions `(col+dx, row+dy)` for the offsets `0 ≤ dx < colSpan`,
`0 ≤ dy < rowSpan` (each defaulting to 1) other than `(0, 0)`, tagged
`left` when `dx > 0` and `top` otherwise; a registered position inside the
scanned grid that no earlier cell claimed then materialises as a
`SpannedTableCell` with that direction — as in the claim's two examples —
while a position outside the grid never does. -/
theorem C8_theorem :
    (∀ (c : RawCell) (col row : ℕ) (sc : SpannedCellPosition),
      sc ∈ registerSpans c col row ↔
        ∃ dx dy, dx < effSpan c.colSpan ∧ dy < effSpan c.rowSpan ∧ ¬(dx = 0 ∧ dy = 0) ∧
          sc = ⟨dx + col, dy + row, if 0 < dx then .left else .top⟩) ∧
    createRows c8aData c8Page = .ok
      [⟨[Cell.cell ⟨⟨0, 0, 10, 10⟩, none, none, []⟩,
         Cell.cell ⟨⟨10, 0, 10, 10⟩, some 2, none, []⟩,
         Cell.spanned ⟨20, 0, 10, 10⟩ Direction.left], ⟨0, 0, 30, 10⟩⟩] ∧
    createRows c8bData c8Page = .ok
      [⟨[Cell.cell ⟨⟨0, 0, 10, 10⟩, none, some 2, []⟩], ⟨0, 0, 10, 10⟩⟩,
       ⟨[Cell.spanned ⟨0, 10, 10, 10⟩ Direction.top], ⟨0, 10, 10, 10⟩⟩] := by
  refine ⟨?_, ?_, ?_⟩
  · intro c col row sc
    simp only [registerSpans, List.mem_flatMap, List.mem_filterMap, List.mem_range]
    constructor
    · rintro ⟨dx, hdx, dy, hdy, hval⟩
      by_cases h0 : dx = 0 ∧ dy = 0
      · simp [h0] at hval
      · rw [if_neg h0] at hval
        simp only [Option.some.injEq] at hval
        exact ⟨dx, dy, hdx, hdy, h0, hval.symm⟩
    · rintro ⟨dx, dy, hdx, hdy, h0, rfl⟩
      exact ⟨dx, hdx, dy, hdy, by rw [if_neg h0]⟩
  · norm_num [createRows, createRowsGo, createRowCells, rowCellsGo, rowBoxOf, qMin, qMax,
      wordsInCellBox, pageWordsOf, registerSpans, effSpan, Cell.box,
      BoundingBox.right, BoundingBox.bottom, c8aData, c8Page,
      List.range_succ, List.range_zero]
  · norm_num [createRows, createRowsGo, createRowCells, rowCellsGo, rowBoxOf, qMin, qMax,
      wordsInCellBox, pageWordsOf, registerSpans, effSpan, Cell.box,
      BoundingBox.right, BoundingBox.bottom, c8bData, c8Page,
      List.range_succ, List.range_zero]

/-!  ## Claim C9  -/

/-- A left fold of `min` never exceeds its initial accumulator. -/
theorem foldl_min_le_self (xs : List ℚ) : ∀ x : ℚ, xs.foldl min x ≤ x := by
  induction xs with
  | nil => intro x; exact le_refl x
  | cons a xs ih =>
    intro x
    calc xs.foldl min (min x a) ≤ min x a := ih (min x a)
      _ ≤ x := min_le_left x a

/-- A left fold of `min` is a lower bound for the list. -/
theorem foldl_min_le_mem (xs : List ℚ) : ∀ (x y : ℚ), y ∈ xs → xs.foldl min x ≤ y := by
  induction xs with
  | nil => intro x y hy; cases hy
  | cons a xs ih =>
    intro x y hy
    rcases List.mem_cons.mp hy with hEq | hMem
    · subst hEq
      calc xs.foldl min (min x y) ≤ min x y := foldl_min_le_self xs (min x y)
        _ ≤ y := min_le_right x y
    · exact ih (min x a) y hMem

/-- A left fold of `min` is attained at the accumulator or in the list. -/
theorem foldl_min_mem (xs : List ℚ) :
    ∀ x : ℚ, xs.foldl min x = x ∨ xs.foldl min x ∈ xs := by
  induction xs with
  | nil => intro x; exact Or.inl rfl
  | cons a xs ih =>
    intro x
    rcases ih (min x a) with hEq | hMem
    · rcases min_choice x a with hx | ha
      · exact Or.inl (by rw [List.foldl_cons, hEq, hx])
      · exact Or.inr (by rw [List.foldl_cons, hEq, ha]; exact List.mem_cons_self a xs)
    · exact Or.inr (List.mem_cons_of_mem a hMem)

/-- A left fold of `max` is at least its initial accumulator. -/
theorem foldl_max_ge_self (xs : List ℚ) : ∀ x : ℚ, x ≤ xs.foldl max x := by
  induction xs with
  | nil => intro x; exact le_refl x
  | cons a xs ih =>
    intro x
    calc x ≤ max x a := le_max_left x a
      _ ≤ xs.foldl max (max x a) := ih (max x a)

/-- A left fold of `max` is an upper bound for the list. -/
theorem foldl_max_ge_mem (xs : List ℚ) : ∀ (x y : ℚ), y ∈ xs → y ≤ xs.foldl max x := by
  induction xs with
  | nil => intro x y hy; cases hy
  | cons a xs ih =>
    intro x y hy
    rcases List.mem_cons.mp hy with hEq | hMem
    · subst hEq
      calc y ≤ max x y := le_max_right x y
        _ ≤ xs.foldl max (max x y) := foldl_max_ge_self xs (max x y)
    · exact ih (max x a) y hMem

/-- A left fold of `max` is attained at the accumulator or in the list. -/
theorem foldl_max_mem (xs : List ℚ) :
    ∀ x : ℚ, xs.foldl max x = x ∨ xs.foldl max x ∈ xs := by
  induction xs with
  | nil => intro x; exact Or.inl rfl
  | cons a xs ih =>
    intro x
    rcases ih (max x a) with hEq | hMem
    · rcases max_choice x a with hx | ha
      · exact Or.inl (by rw [List.foldl_cons, hEq, hx])
      · exact Or.inr (by rw [List.foldl_cons, hEq, ha]; exact List.mem_cons_self a xs)
    · exact Or.inr (List.mem_cons_of_mem a hMem)

/-- `qMin` of a nonempty list is a lower bound. -/
theorem qMin_le (l : List ℚ) (y : ℚ) (hy : y ∈ l) : qMin l ≤ y := by
  cases l with
  | nil => cases hy
  | cons x xs =>
    rcases List.mem_cons.mp hy with hEq | hMem
    · subst hEq; exact foldl_min_le_self xs y
    · exact foldl_min_le_mem xs x y hMem

/-- `qMin` of a nonempty list is attained. -/
theorem qMin_mem (l : List ℚ) (h : l ≠ []) : qMin l ∈ l := by
  cases l with
  | nil => exact absurd rfl h
  | cons x xs =>
    rcases foldl_min_mem xs x with hEq | hMem
    · rw [qMin, hEq]; exact List.mem_cons_self x xs
    · exact List.mem_cons_of_mem x hMem

/-- `qMax` of a nonempty list is an upper bound. -/
theorem qMax_ge (l : List ℚ) (y : ℚ) (hy : y ∈ l) : y ≤ qMax l := by
  cases l with
  | nil => cases hy
  | cons x xs =>
    rcases List.mem_cons.mp hy with hEq | hMem
    · subst hEq; exact foldl_max_ge_self xs y
    · exact foldl_max_ge_mem xs x y hMem

/-- `qMax` of a nonempty list is attained. -/
theorem qMax_mem (l : List ℚ) (h : l ≠ []) : qMax l ∈ l := by
  cases l with
  | nil => exact absurd rfl h
  | cons x xs =>
    rcases foldl_max_mem xs x with hEq | hMem
    · rw [qMax, hEq]; exact List.mem_cons_self x xs
    · exact List.mem_cons_of_mem x hMem

/-- C9 (amended): the row box is left-minimal, top-minimal and
right-maximal over the row's cells, but its bottom edge is the *minimum*
of the cell bottoms, so it equals the claim's bounding rectangle exactly
when all the cells' bottoms coincide with the lowest one. -/
theorem C9_theorem (cells : List Cell) (h : cells ≠ []) :
    ((∀ c ∈ cells, (rowBoxOf cells).left ≤ c.box.left) ∧
      ∃ c ∈ cells, c.box.left = (rowBoxOf cells).left) ∧
    ((∀ c ∈ cells, (rowBoxOf cells).top ≤ c.box.top) ∧
      ∃ c ∈ cells, c.box.top = (rowBoxOf cells).top) ∧
    ((∀ c ∈ cells, c.box.right ≤ (rowBoxOf cells).right) ∧
      ∃ c ∈ cells, c.box.right = (rowBoxOf cells).right) ∧
    ((∀ c ∈ cells, (rowBoxOf cells).bottom ≤ c.box.bottom) ∧
      ∃ c ∈ cells, c.box.bottom = (rowBoxOf cells).bottom) ∧
    (rowBoxOf cells = boundingRectOf cells ↔
      qMin (cells.map fun c => c.box.bottom) = qMax (cells.map fun c => c.box.bottom)) := by
  have hmapne : ∀ (f : Cell → ℚ), cells.map f ≠ [] := by
    intro f hnil
    exact h (List.map_eq_nil_iff.mp hnil)
  have hleft : (rowBoxOf cells).left = qMin (cells.map fun c => c.box.left) := rfl
  have htop : (rowBoxOf cells).top = qMin (cells.map fun c => c.box.top) := rfl
  have hright : (rowBoxOf cells).right = qMax (cells.map fun c => c.box.right) := by
    simp only [rowBoxOf, BoundingBox.right]
    ring
  have hbottom : (rowBoxOf cells).bottom = qMin (cells.map fun c => c.box.bottom) := by
    simp only [rowBoxOf, BoundingBox.bottom]
    ring
  refine ⟨⟨?_, ?_⟩, ⟨?_, ?_⟩, ⟨?_, ?_⟩, ⟨?_, ?_⟩, ?_⟩
  · intro c hc
    rw [hleft]
    exact qMin_le _ _ (List.mem_map_of_mem _ hc)
  · obtain ⟨c, hc, hv⟩ := List.mem_map.mp (qMin_mem _ (hmapne fun c => c.box.left))
    exact ⟨c, hc, by rw [hleft, hv]⟩
  · intro c hc
    rw [htop]
    exact qMin_le _ _ (List.mem_map_of_mem _ hc)
  · obtain ⟨c, hc, hv⟩ := List.mem_map.mp (qMin_mem _ (hmapne fun c => c.box.top))
    exact ⟨c, hc, by rw [htop, hv]⟩
  · intro c hc
    rw [hright]
    exact qMax_ge _ _ (List.mem_map_of_mem _ hc)
  · obtain ⟨c, hc, hv⟩ := List.mem_map.mp (qMax_mem _ (hmapne fun c => c.box.right))
    exact ⟨c, hc, by rw [hright, hv]⟩
  · intro c hc
    rw [hbottom]
    exact qMin_le _ _ (List.mem_map_of_mem _ hc)
  · obtain ⟨c, hc, hv⟩ := List.mem_map.mp (qMin_mem _ (hmapne fun c => c.box.bottom))
    exact ⟨c, hc, by rw [hbottom, hv]⟩
  · simp only [rowBoxOf, boundingRectOf, BoundingBox.mk.injEq, true_and]
    exact sub_left_inj

/-- The two reconstructed cells of the C9 counterexample, with different
bottom edges. -/
def c9cells : List Cell :=
  [Cell.cell ⟨⟨0, 0, 10, 10⟩, none, none, []⟩,
   Cell.cell ⟨⟨10, 0, 10, 20⟩, none, none, []⟩]

/-- Raw descriptor with two cells of different heights in one row. -/
def c9Data : RawTable :=
  ⟨⟨0, 100⟩, ⟨20, 20⟩, [(0, 10), (10, 20)], [(100, 90)],
    [[some ⟨⟨0, 100⟩, ⟨10, 10⟩, none, none⟩, some ⟨⟨10, 100⟩, ⟨10, 20⟩, none, none⟩]],
    none, "lattice"⟩

/-- C9: the claim is false — a row of cells with unequal bottom edges gets
a box of height `min bottom − min top`, which differs from the bounding
rectangle over those cells (whose height is `max bottom − min top`). -/
theorem C9_counterexample :
    createRows c9Data (⟨[], ⟨0, 0, 100, 100⟩⟩ : Page) = .ok [⟨c9cells, ⟨0, 0, 20, 10⟩⟩] ∧
    boundingRectOf c9cells = ⟨0, 0, 20, 20⟩ ∧
    (⟨0, 0, 20, 10⟩ : BoundingBox) ≠ ⟨0, 0, 20, 20⟩ := by
  refine ⟨?_, ?_, ?_⟩
  · norm_num [createRows, createRowsGo, createRowCells, rowCellsGo, rowBoxOf, qMin, qMax,
      wordsInCellBox, pageWordsOf, registerSpans, effSpan, Cell.box,
      BoundingBox.right, BoundingBox.bottom, c9Data, c9cells,
      List.range_succ, List.range_zero]
  · norm_num [boundingRectOf, qMin, qMax, Cell.box, BoundingBox.right, BoundingBox.bottom,
      c9cells]
  · simp only [ne_eq, BoundingBox.mk.injEq]
    norm_num

/-- Witness for `C9_theorem` at a concrete singleton cell list. -/
theorem C9_witness :
    ((∀ c ∈ c9cells, (rowBoxOf c9cells).left ≤ c.box.left) ∧
      ∃ c ∈ c9cells, c.box.left = (rowBoxOf c9cells).left) ∧
    ((∀ c ∈ c9cells, (rowBoxOf c9cells).top ≤ c.box.top) ∧
      ∃ c ∈ c9cells, c.box.top = (rowBoxOf c9cells).top) ∧
    ((∀ c ∈ c9cells, c.box.right ≤ (rowBoxOf c9cells).right) ∧
      ∃ c ∈ c9cells, c.box.right = (rowBoxOf c9cells).right) ∧
    ((∀ c ∈ c9cells, (rowBoxOf c9cells).bottom ≤ c.box.bottom) ∧
      ∃ c ∈ c9cells, c.box.bottom = (rowBoxOf c9cells).bottom) ∧
    (rowBoxOf c9cells = boundingRectOf c9cells ↔
      qMin (c9cells.map fun c => c.box.bottom) = qMax (c9cells.map fun c => c.box.bottom)) :=
  C9_theorem c9cells (by simp [c9cells])

/-!  ## Claim C5  -/

/-- Membership characterization of the candidate columns computed by
`rowCandidatesGo`: exactly the in-range columns whose reconstructed cell
text differs from the expected text. -/
theorem rowCandidatesGo_mem (cells : List Cell) :
    ∀ (ds : List JSString) (n : ℕ) (l : List ℕ),
      rowCandidatesGo cells n ds = .ok l →
      ∀ m, m ∈ l ↔ ∃ k, k < ds.length ∧ m = n + k ∧
        ∃ c s, cells.get? (n + k) = some c ∧ ds.get? k = some s ∧ c.text ≠ s := by
  intro ds
  induction ds with
  | nil =>
    intro n l h m
    simp only [rowCandidatesGo, Except.ok.injEq] at h
    subst h
    simp
  | cons s0 rest ih =>
    intro n l h m
    simp only [rowCandidatesGo] at h
    cases hc : cells.get? n with
    | none => rw [hc] at h; cases h
    | some c0 =>
      rw [hc] at h
      cases hrec : rowCandidatesGo cells (n + 1) rest with
      | error e => rw [hrec] at h; cases h
      | ok l' =>
        rw [hrec] at h
        have h' : Except.ok (if c0.text ≠ s0 then n :: l' else l') = Except.ok l := h
        have hih := ih (n + 1) l' hrec
        by_cases hne : c0.text = s0
        · rw [if_neg (not_not_intro hne)] at h'
          cases h' 
          constructor
          · intro hm
            obtain ⟨k, hk, hmk, c, s, hcs, hds, hcne⟩ := (hih m).mp hm
            refine ⟨k + 1, by simp only [List.length_cons]; omega, by omega, c, s, ?_, by simpa using hds, hcne⟩
            rw [show n + (k + 1) = n + 1 + k by omega]
            exact hcs
          · rintro ⟨k, hk, hmk, c, s, hcs, hds, hcne⟩
            cases k with
            | zero =>
              rw [Nat.add_zero, hc] at hcs
              simp only [Option.some.injEq] at hcs
              simp only [List.get?_cons_zero, Option.some.injEq] at hds
              subst hcs
              subst hds
              exact absurd hne hcne
            | succ j =>
              apply (hih m).mpr
              refine ⟨j, by simp only [List.length_cons] at hk; omega, by omega, c, s, ?_, by simpa using hds, hcne⟩
              rw [show n + 1 + j = n + (j + 1) by omega]
              exact hcs
        · rw [if_pos hne] at h'
          cases h'
          constructor
          · intro hm
            rcases List.mem_cons.mp hm with hEq | hMem
            · subst hEq
              refine ⟨0, by simp only [List.length_cons]; omega, by omega, c0, s0, ?_, rfl, hne⟩
              rw [Nat.add_zero]
              exact hc
            · obtain ⟨k, hk, hmk, c, s, hcs, hds, hcne⟩ := (hih m).mp hMem
              refine ⟨k + 1, by simp only [List.length_cons]; omega, by omega, c, s, ?_, by simpa using hds, hcne⟩
              rw [show n + (k + 1) = n + 1 + k by omega]
              exact hcs
          · rintro ⟨k, hk, hmk, c, s, hcs, hds, hcne⟩
            cases k with
            | zero =>
              have hmn : m = n := by omega
              subst hmn
              exact List.mem_cons_self _ _
            | succ j =>
              apply List.mem_cons_of_mem
              apply (hih m).mpr
              refine ⟨j, by simp only [List.length_cons] at hk; omega, by omega, c, s, ?_, by simpa using hds, hcne⟩
              rw [show n + 1 + j = n + (j + 1) by omega]
              exact hcs

/-- Every element of a group produced by `groupConsecutive` comes from the
input list. -/
theorem groupConsecutive_mem (l : List ℕ) :
    ∀ g ∈ groupConsecutive l, ∀ x ∈ g, x ∈ l := by
  induction l with
  | nil => intro g hg; simp [groupConsecutive] at hg
  | cons a rest ih =>
    intro g hg x hx
    simp only [groupConsecutive] at hg
    cases hgc : groupConsecutive rest with
    | nil =>
      rw [hgc] at hg
      simp only [List.mem_singleton] at hg
      subst hg
      simp only [List.mem_singleton] at hx
      subst hx
      exact List.mem_cons_self _ _
    | cons g0 gs =>
      rw [hgc] at hg
      cases g0 with
      | nil =>
        rcases List.mem_cons.mp hg with h1 | h2
        · subst h1
          simp only [List.mem_singleton] at hx
          subst hx
          exact List.mem_cons_self _ _
        · rcases List.mem_cons.mp h2 with h3 | h4
          · subst h3; cases hx
          · have hxr : x ∈ rest :=
              ih g (by rw [hgc]; exact List.mem_cons_of_mem _ h4) x hx
            exact List.mem_cons_of_mem _ hxr
      | cons y g0' =>
        have hg2 : g ∈ (if y = a + 1 then (a :: y :: g0') :: gs
            else [a] :: (y :: g0') :: gs) := hg
        by_cases hy : y = a + 1
        · rw [if_pos hy] at hg2
          rcases List.mem_cons.mp hg2 with h1 | h2
          · subst h1
            rcases List.mem_cons.mp hx with hxa | hxrest
            · subst hxa; exact List.mem_cons_self _ _
            · have hxr : x ∈ rest :=
                ih (y :: g0') (by rw [hgc]; exact List.mem_cons_self _ _) x hxrest
              exact List.mem_cons_of_mem _ hxr
          · have hxr : x ∈ rest :=
              ih g (by rw [hgc]; exact List.mem_cons_of_mem _ h2) x hx
            exact List.mem_cons_of_mem _ hxr
        · rw [if_neg hy] at hg2
          rcases List.mem_cons.mp hg2 with h1 | h2
          · subst h1
            simp only [List.mem_singleton] at hx
            subst hx
            exact List.mem_cons_self _ _
          · rcases List.mem_cons.mp h2 with h3 | h4
            · subst h3
              have hxr : x ∈ rest :=
                ih (y :: g0') (by rw [hgc]; exact List.mem_cons_self _ _) x hx
              exact List.mem_cons_of_mem _ hxr
            · have hxr : x ∈ rest :=
                ih g (by rw [hgc]; exact List.mem_cons_of_mem _ h4) x hx
              exact List.mem_cons_of_mem _ hxr

/-- The reconstructed row of the claim's merge example: cell texts
"this is only one" and "cell". -/
def c5row : TableRow :=
  ⟨[Cell.cell ⟨⟨0, 0, 10, 10⟩, none, none, [⟨1, "this is only one".toList, ⟨0, 0, 10, 10⟩⟩]⟩,
    Cell.cell ⟨⟨10, 0, 10, 10⟩, none, none, [⟨2, "cell".toList, ⟨10, 0, 10, 10⟩⟩]⟩],
    ⟨0, 0, 20, 10⟩⟩

/-- The expected texts of the claim's merge example. -/
def c5expected : List JSString := ["this is only one cell".toList, "".toList]

/-- C5 (confirmed): per row, the merge candidates are exactly the column
positions whose cell text differs from the expected text; candidate runs
that survive the filter have length at least 2 and consist of candidate
columns; a row whose cell texts all match the expected texts has no
candidates and yields no merge groups; and the claim's example — expected
`["this is only one cell", ""]` against cell texts
`["this is only one", "cell"]` — yields the single merge group `{0, 1}`. -/
theorem C5_theorem (rowCells : List Cell) (ds : List JSString) (cands : List ℕ)
    (h : rowCandidates rowCells ds = .ok cands) :
    (∀ m, m ∈ cands ↔ m < ds.length ∧
      ∃ c s, rowCells.get? m = some c ∧ ds.get? m = some s ∧ c.text ≠ s) ∧
    (∀ g ∈ (groupConsecutive cands).filter (fun g => decide (1 < g.length)),
      2 ≤ g.length ∧ ∀ x ∈ g, x ∈ cands) ∧
    ((∀ m c s, rowCells.get? m = some c → ds.get? m = some s → c.text = s) →
      cands = [] ∧ ∀ dataRow, mergeGroupsForRow dataRow rowCells
        ((groupConsecutive cands).filter (fun g => decide (1 < g.length))) = []) ∧
    (getMergeCandidateCellPositions [c5row] [c5expected] = .ok [(0, [[0, 1]])] ∧
      mergeGroupsForRow c5expected c5row.content [[0, 1]] = [[0, 1]]) := by
  have hchar := rowCandidatesGo_mem rowCells ds 0 cands h
  refine ⟨?_, ?_, ?_, ?_, ?_⟩
  · intro m
    rw [hchar m]
    constructor
    · rintro ⟨k, hk, hmk, c, s, hcs, hds, hcne⟩
      have : m = k := by omega
      subst this
      exact ⟨hk, c, s, by simpa using hcs, hds, hcne⟩
    · rintro ⟨hm, c, s, hcs, hds, hcne⟩
      exact ⟨m, hm, by omega, c, s, by simpa using hcs, hds, hcne⟩
  · intro g hg
    have hmem := List.mem_filter.mp hg
    constructor
    · have := hmem.2
      simp only [decide_eq_true_eq] at this
      omega
    · exact groupConsecutive_mem cands g hmem.1
  · intro hmatch
    have hnil : cands = [] := by
      rw [List.eq_nil_iff_forall_not_mem]
      intro m hm
      obtain ⟨k, hk, hmk, c, s, hcs, hds, hcne⟩ := (hchar m).mp hm
      exact hcne (hmatch (0 + k) c s hcs (by simpa using hds))
    subst hnil
    exact ⟨rfl, fun dataRow => rfl⟩
  · rfl
  · rfl

/-- Witness for `C5_theorem`: at the claim's example row the candidate
columns are 0 and 1 and the single merge group `{0, 1}` is committed. -/
theorem C5_witness :
    getMergeCandidateCellPositions [c5row] [c5expected] = .ok [(0, [[0, 1]])] ∧
    mergeGroupsForRow c5expected c5row.content [[0, 1]] = [[0, 1]] :=
  (C5_theorem c5row.content c5expected [0, 1] (by rfl)).2.2.2

end Parsr
